import Mathlib

/-!
Verification of the Matching & Assignment Engine of the Emergency Response
Platform (spec.md) against the repository.  The repository's `src/` tree only
contains the frontend client (`frontend/js/api.js`, `frontend/js/main.js`);
the engine itself (GeoIndex, EligibilityFilter, MatchRanker,
AssignmentStateMachine, MatchingOrchestrator) lives in the Flask backend,
which is not part of `src/`.  Definitions of those components are therefore
modelled from the spec (each marked `Modelled from the spec:`); the client
state handling (auth token, localStorage) is embedded directly from
`frontend/js/api.js`.
-/

namespace ERP

/-! ## Data model (spec §3) -/

/-- Modelled from the spec: volunteer availability status
`available|unavailable|busy` (§3, Volunteer). -/
inductive Availability where
  | available
  | unavailable
  | busy
deriving DecidableEq, Repr

/-- Modelled from the spec: emergency priority level
`low|medium|high|critical` (§3, EmergencyRequest). -/
inductive Priority where
  | low
  | medium
  | high
  | critical
deriving DecidableEq, Repr

/-- Modelled from the spec: a Volunteer record — identity, verified skill
set (skill-verification is an input: a skill counts only if verified, §1),
location, availability status, last availability-update timestamp (§3). -/
structure Volunteer where
  vid : Nat
  verifiedSkills : List String
  lat : ℚ
  lon : ℚ
  availability : Availability
  lastAvailabilityUpdate : Nat
deriving DecidableEq, Repr

/-- Modelled from the spec: Assignment status
`requested|accepted|declined|completed|cancelled` (§3). -/
inductive AStatus where
  | requested
  | accepted
  | declined
  | completed
  | cancelled
deriving DecidableEq, Repr

/-- Modelled from the spec: EmergencyRequest status
`open|assigned|closed|cancelled` (§3). -/
inductive EStatus where
  | opened
  | assigned
  | closed
  | cancelled
deriving DecidableEq, Repr

/-- Modelled from the spec: an EmergencyRequest — identity, location,
priority, required skill set, `volunteersNeeded`, status (§3). -/
structure Emergency where
  eid : Nat
  lat : ℚ
  lon : ℚ
  priority : Priority
  requiredSkills : List String
  volunteersNeeded : Nat
  status : EStatus
deriving DecidableEq, Repr

/-- Modelled from the spec: an Assignment — identity, references to exactly
one EmergencyRequest and one Volunteer, status, offer timestamp, response
deadline, response timestamp, free-text notes (§3). -/
structure Assignment where
  aid : Nat
  emergencyId : Nat
  volunteerId : Nat
  status : AStatus
  offerTimestamp : Nat
  responseDeadline : Nat
  responseTimestamp : Option Nat
  notes : String
deriving DecidableEq, Repr

/-- Modelled from the spec: the error kinds of §7 — `InvalidCoordinate`,
`IllegalTransition`, `DuplicateAssignment`, `NotFound` — all returned as
typed results, never thrown. -/
inductive ErrKind where
  | invalidCoordinate
  | illegalTransition
  | duplicateAssignment
  | notFound
deriving DecidableEq, Repr

/-- A status is terminal iff it is `declined`, `completed` or `cancelled`
(§3, §4.4). -/
def AStatus.isTerminal : AStatus → Bool
  | .declined => true
  | .completed => true
  | .cancelled => true
  | _ => false

/-- A status is non-terminal iff it is `requested` or `accepted` (§3). -/
def AStatus.nonTerminal : AStatus → Bool
  | .requested => true
  | .accepted => true
  | _ => false

/-! ## AssignmentStateMachine (spec §4.4) -/

/-- Modelled from the spec: `accept` — legal only from `requested`, before
`responseDeadline`; sets `responseTimestamp` (§4.4).  An `accept` attempted
from any other state, or after the deadline has passed, fails with
`IllegalTransition` (typed result, the assignment is not modified). -/
def tryAccept (now : Nat) (a : Assignment) : Except ErrKind Assignment :=
  if a.status = .requested ∧ now ≤ a.responseDeadline then
    .ok { a with status := .accepted, responseTimestamp := some now }
  else
    .error .illegalTransition

/-- Modelled from the spec: `decline` — legal only from `requested`; an
accept/decline attempted after `responseDeadline` has passed fails with
`IllegalTransition` (§4.4). -/
def tryDecline (now : Nat) (a : Assignment) : Except ErrKind Assignment :=
  if a.status = .requested ∧ now ≤ a.responseDeadline then
    .ok { a with status := .declined, responseTimestamp := some now }
  else
    .error .illegalTransition

/-- Modelled from the spec: `complete` — legal only from `accepted` (§4.4). -/
def tryComplete (a : Assignment) : Except ErrKind Assignment :=
  if a.status = .accepted then
    .ok { a with status := .completed }
  else
    .error .illegalTransition

/-- Modelled from the spec: `cancel` — legal from `requested` or `accepted`
(§4.4). -/
def tryCancel (a : Assignment) : Except ErrKind Assignment :=
  if a.status = .requested ∨ a.status = .accepted then
    .ok { a with status := .cancelled }
  else
    .error .illegalTransition

/-- Modelled from the spec: the decision argument of `RespondToAssignment`
is drawn from the two-element set `{accept, decline}` (§6). -/
inductive Decision where
  | accept
  | decline
deriving DecidableEq, Repr

/-- Modelled from the spec: `RespondToAssignment(assignmentId, decision,
notes) → Assignment | IllegalTransition` (§6), dispatching to the state
machine's `accept`/`decline` transition. -/
def respondToAssignment (now : Nat) (d : Decision) (notes : String)
    (a : Assignment) : Except ErrKind Assignment :=
  match d with
  | .accept =>
      match tryAccept now a with
      | .ok b => .ok { b with notes := notes }
      | .error e => .error e
  | .decline =>
      match tryDecline now a with
      | .ok b => .ok { b with notes := notes }
      | .error e => .error e

/-! ## System state and MatchingOrchestrator (spec §4.6) -/

/-- Modelled from the spec: the state the Orchestrator and StateMachine act
on — the EmergencyRequests, the Assignments created so far, and a fresh-id
counter for new Assignments (§3, §4.6). -/
structure SysState where
  emergencies : List Emergency
  assignments : List Assignment
  nextAid : Nat
deriving DecidableEq, Repr

/-- An assignment counts toward an emergency's filled need iff it references
that emergency and is neither declined nor cancelled (§3 invariant,
§4.4 `complete` keeps the slot consumed via the decremented
outstanding-need counter). -/
def countsToward (e : Nat) (a : Assignment) : Bool :=
  (a.emergencyId == e) && !(a.status == AStatus.declined)
    && !(a.status == AStatus.cancelled)

/-- Number of non-declined, non-cancelled Assignments of emergency `e`. -/
def slotCount (s : SysState) (e : Nat) : Nat :=
  s.assignments.countP (countsToward e)

/-- An assignment is a live (non-terminal) assignment of volunteer `v` on
emergency `e`. -/
def pairMatch (e v : Nat) (a : Assignment) : Bool :=
  (a.emergencyId == e) && (a.volunteerId == v) && a.status.nonTerminal

/-- Number of non-terminal Assignments of the pair `(e, v)`. -/
def pairCount (s : SysState) (e v : Nat) : Nat :=
  s.assignments.countP (pairMatch e v)

/-- The volunteer `v` already has a non-terminal Assignment for emergency
`e` (§4.6 exclusion, §7 duplicate detection). -/
def activeFor (s : SysState) (e v : Nat) : Bool :=
  s.assignments.any (pairMatch e v)

/-- Modelled from the spec: a fresh Assignment offer — initial state on
creation is always `requested`, with `offerTimestamp = now` and the given
response deadline (§4.4). -/
def mkOffer (idv e v now dl : Nat) : Assignment :=
  { aid := idv, emergencyId := e, volunteerId := v, status := .requested,
    offerTimestamp := now, responseDeadline := dl,
    responseTimestamp := none, notes := "" }

/-- Modelled from the spec: creating an Assignment for `(e, v)` — an attempt
to create a second non-terminal Assignment for the same volunteer/emergency
pair fails with the typed result `DuplicateAssignment` (§7). -/
def createAssignment (s : SysState) (e v now dl : Nat) :
    Except ErrKind SysState :=
  if activeFor s e v then .error .duplicateAssignment
  else .ok { s with
    assignments := s.assignments ++ [mkOffer s.nextAid e v now dl],
    nextAid := s.nextAid + 1 }

/-- Modelled from the spec: the Orchestrator's offer-creation loop — walk
the ranked candidate sequence from the top and create up to `n` new
`requested` Assignments; a candidate whose creation fails with a typed
error (a duplicate — the §4.6 exclusion of volunteers who already have a
non-terminal Assignment for this emergency) is skipped, never aborting the
loop (§7). -/
def offerLoop (e now dl : Nat) : SysState → List Nat → Nat → SysState
  | s, [], _ => s
  | s, _ :: _, 0 => s
  | s, v :: rest, n + 1 =>
      match createAssignment s e v now dl with
      | .ok s1 => offerLoop e now dl s1 rest n
      | .error _ => offerLoop e now dl s rest (n + 1)

/-- Modelled from the spec: `matchRequest(emergency)` — compute
`outstandingNeed = volunteersNeeded − count(slot-consuming Assignments)`;
if it is zero stop, otherwise create up to `outstandingNeed` new `requested`
Assignments from the top of the ranked candidate sequence, skipping
volunteers who already have a non-terminal Assignment for this emergency
(§4.6).  `ranked` is the output of EligibilityFilter + MatchRanker for this
emergency; the response deadline is `now + escalationTimeoutMinutes`
(§4.4). -/
def matchRequest (s : SysState) (e : Nat) (ranked : List Nat)
    (now timeoutMin : Nat) : SysState :=
  match s.emergencies.find? (fun em => em.eid == e) with
  | none => s
  | some em =>
      offerLoop e now (now + timeoutMin) s ranked
        (em.volunteersNeeded - slotCount s e)

/-- Modelled from the spec: running one StateMachine transition on the
Assignment with id `i` inside the system state.  A failed transition
returns the typed error and leaves the state unchanged; an unknown id is
the typed `NotFound` result (§7). -/
def applyTransition (f : Assignment → Except ErrKind Assignment) (i : Nat)
    (s : SysState) : SysState × Except ErrKind Assignment :=
  match s.assignments.find? (fun a => a.aid == i) with
  | none => (s, .error .notFound)
  | some a =>
      match f a with
      | .ok b =>
          ({ s with assignments :=
              s.assignments.map (fun c => if c.aid == i then b else c) },
           .ok b)
      | .error err => (s, .error err)

/-- Modelled from the spec: the states of the system reachable from an
initial state (distinct EmergencyRequests, no Assignments yet) through the
core operations — `matchRequest` and the StateMachine transitions
`accept`, `decline`, `complete`, `cancel` (§4.4, §4.6, §6). -/
inductive Reachable : SysState → Prop where
  | init (ems : List Emergency) (hn : (ems.map Emergency.eid).Nodup) :
      Reachable { emergencies := ems, assignments := [], nextAid := 0 }
  | matchStep {s} (e : Nat) (ranked : List Nat) (now timeoutMin : Nat) :
      Reachable s → Reachable (matchRequest s e ranked now timeoutMin)
  | acceptStep {s} (i now : Nat) :
      Reachable s → Reachable (applyTransition (tryAccept now) i s).1
  | declineStep {s} (i now : Nat) :
      Reachable s → Reachable (applyTransition (tryDecline now) i s).1
  | completeStep {s} (i : Nat) :
      Reachable s → Reachable (applyTransition tryComplete i s).1
  | cancelStep {s} (i : Nat) :
      Reachable s → Reachable (applyTransition tryCancel i s).1
  | respondStep {s} (i now : Nat) (d : Decision) (notes : String) :
      Reachable s →
      Reachable (applyTransition (respondToAssignment now d notes) i s).1

/-- Number of `accepted` Assignments of emergency `e`. -/
def acceptedCount (s : SysState) (e : Nat) : Nat :=
  s.assignments.countP
    (fun a => (a.emergencyId == e) && (a.status == AStatus.accepted))

/-- A transition operation of the state machine preserves the assignment's
identity and both references, and only fires from a non-terminal state. -/
def StepSafe (f : Assignment → Except ErrKind Assignment) : Prop :=
  ∀ a b, f a = .ok b →
    b.aid = a.aid ∧ b.emergencyId = a.emergencyId ∧
    b.volunteerId = a.volunteerId ∧
    (a.status = .requested ∨ a.status = .accepted)

/-- The system invariant maintained by the core: distinct emergency ids,
distinct and fresh assignment ids, the §3 slot bound, and the §3
one-non-terminal-Assignment-per-pair bound. -/
structure SysInv (s : SysState) : Prop where
  eidsNodup : (s.emergencies.map Emergency.eid).Nodup
  aidsNodup : (s.assignments.map Assignment.aid).Nodup
  aidsFresh : ∀ a ∈ s.assignments, a.aid < s.nextAid
  slotBound : ∀ em ∈ s.emergencies, slotCount s em.eid ≤ em.volunteersNeeded
  pairBound : ∀ e v, pairCount s e v ≤ 1

/-- A concrete emergency used to exhibit reachable states. -/
def wEmergency : Emergency :=
  { eid := 7, lat := 0, lon := 0, priority := .high,
    requiredSkills := ["Paramedic"], volunteersNeeded := 1,
    status := .opened }

/-- A concrete initial state holding `wEmergency` and no assignments. -/
def wState0 : SysState :=
  { emergencies := [wEmergency], assignments := [], nextAid := 0 }

/-- The state after one `matchRequest` for `wEmergency` with the single
ranked candidate volunteer 3. -/
def wState1 : SysState := matchRequest wState0 7 [3] 0 30

/-- A concrete accepted assignment used to exercise the state machine. -/
def wAccepted : Assignment :=
  { aid := 1, emergencyId := 2, volunteerId := 3, status := .accepted,
    offerTimestamp := 0, responseDeadline := 10,
    responseTimestamp := some 5, notes := "" }

/-- The state of `wAccepted` after a successful `complete` transition. -/
def wCompleted : Assignment :=
  { aid := 1, emergencyId := 2, volunteerId := 3, status := .completed,
    offerTimestamp := 0, responseDeadline := 10,
    responseTimestamp := some 5, notes := "" }

/-! ## EligibilityFilter and MatchRanker (spec §4.2, §4.3) -/

/-- Modelled from the spec: the number of the emergency's required skills
the volunteer holds with verified status (§4.3 primary scoring key). -/
def skillOverlap (em : Emergency) (v : Volunteer) : Nat :=
  em.requiredSkills.countP (fun sk => v.verifiedSkills.contains sk)

/-- Modelled from the spec: the volunteer's verified skill set intersects
the emergency's required skill set by at least one skill (§4.2 partial-match
policy). -/
def hasVerifiedOverlap (em : Emergency) (v : Volunteer) : Bool :=
  em.requiredSkills.any (fun sk => v.verifiedSkills.contains sk)

/-- Modelled from the spec: the configuration surface consumed by the core
(§6). -/
structure MatchConfig where
  defaultRadiusKm : ℚ
  maxRadiusKm : ℚ
  escalationTimeoutMinutes : Nat
  schedulerPollIntervalSeconds : Nat
deriving DecidableEq, Repr

/-- Modelled from the spec: the search radius used by the EligibilityFilter
— the default radius unless the Orchestrator explicitly requested a
broadening, in which case the wider max radius (§4.2). -/
def searchRadius (cfg : MatchConfig) (broadenRequested : Bool) : ℚ :=
  if broadenRequested then cfg.maxRadiusKm else cfg.defaultRadiusKm

/-- Modelled from the spec: `eligible(emergency, volunteerPool)` — keeps
exactly the volunteers that are available, share a verified skill with the
emergency, and are within the given search radius; an empty result is an
ordinary value, not an error (§4.2).  The GeoIndex distance of a volunteer
to the emergency is supplied as a function argument (§4.1 haversine needs
real trigonometry; only its comparisons matter here). -/
def eligible (em : Emergency) (dist : Volunteer → ℚ) (radius : ℚ)
    (pool : List Volunteer) : List Volunteer :=
  pool.filter (fun v =>
    (v.availability == Availability.available) && hasVerifiedOverlap em v
      && decide (dist v ≤ radius))

/-- Modelled from the spec: the §4.3 ranking comparison — skill overlap
descending, then distance ascending, then availability-update timestamp
descending, then volunteer identity ascending — as a Boolean comparator. -/
def rankLE (em : Emergency) (dist : Volunteer → ℚ) (a b : Volunteer) : Bool :=
  decide (skillOverlap em b < skillOverlap em a) ||
  (decide (skillOverlap em a = skillOverlap em b) &&
    (decide (dist a < dist b) ||
     (decide (dist a = dist b) &&
       (decide (b.lastAvailabilityUpdate < a.lastAvailabilityUpdate) ||
        (decide (a.lastAvailabilityUpdate = b.lastAvailabilityUpdate) &&
         decide (a.vid ≤ b.vid))))))

/-- The §4.3 ranking order as a relation: `a` ranks no worse than `b`. -/
def rankRel (em : Emergency) (dist : Volunteer → ℚ) (a b : Volunteer) : Prop :=
  skillOverlap em b < skillOverlap em a ∨
  (skillOverlap em a = skillOverlap em b ∧
    (dist a < dist b ∨ (dist a = dist b ∧
      (b.lastAvailabilityUpdate < a.lastAvailabilityUpdate ∨
       (a.lastAvailabilityUpdate = b.lastAvailabilityUpdate ∧
        a.vid ≤ b.vid)))))

/-- Insert a volunteer into a ranked list, keeping the comparator order. -/
def insertRanked (le : Volunteer → Volunteer → Bool) (v : Volunteer) :
    List Volunteer → List Volunteer
  | [] => [v]
  | w :: rest => if le v w then v :: w :: rest else w :: insertRanked le v rest

/-- Insertion sort by a Boolean comparator. -/
def sortRanked (le : Volunteer → Volunteer → Bool) :
    List Volunteer → List Volunteer
  | [] => []
  | v :: rest => insertRanked le v (sortRanked le rest)

/-- Modelled from the spec: `rank(emergency, candidates)` — the candidates
ordered by the deterministic §4.3 scoring function. -/
def rank (em : Emergency) (dist : Volunteer → ℚ) (candidates : List Volunteer) :
    List Volunteer :=
  sortRanked (rankLE em dist) candidates

/-! ## GeoIndex validation and the matching loop's error handling
(spec §4.1, §7) -/

/-- Modelled from the spec: a coordinate is well-formed iff latitude lies in
[-90, 90] and longitude in [-180, 180] (§4.1). -/
def validCoord (lat lon : ℚ) : Bool :=
  decide (-90 ≤ lat) && decide (lat ≤ 90) &&
    decide (-180 ≤ lon) && decide (lon ≤ 180)

/-- Modelled from the spec: per-candidate processing inside the matching
loop — a malformed volunteer location is rejected with the typed
`InvalidCoordinate` result (§4.1, §7); otherwise the candidate is paired
with its distance to the emergency. -/
def processCandidate (_em : Emergency) (dist : Volunteer → ℚ)
    (v : Volunteer) : Except ErrKind (Volunteer × ℚ) :=
  if validCoord v.lat v.lon then .ok (v, dist v) else .error .invalidCoordinate

/-- Modelled from the spec: the matching loop over the candidate pool — a
candidate's typed failure is logged (recorded with the volunteer id) and
skipped; it is never thrown across the loop and never aborts matching for
the rest of the pool (§7). -/
def matchLoop (em : Emergency) (dist : Volunteer → ℚ) :
    List Volunteer → List (Volunteer × ℚ) × List (Nat × ErrKind)
  | [] => ([], [])
  | v :: rest =>
      let r := matchLoop em dist rest
      match processCandidate em dist v with
      | .ok p => (p :: r.1, r.2)
      | .error k => (r.1, (v.vid, k) :: r.2)

/-! ## Frontend auth client, embedded from src/frontend/js/api.js -/

/-- The client-side authentication state of `frontend/js/api.js`: the
module-level `authToken` variable and the browser `localStorage`. -/
structure ClientState where
  authToken : Option String
  localStorage : List (String × String)
deriving DecidableEq, Repr

/-- The `localStorage.removeItem(key)` operation as used by `AuthAPI.logout`. -/
def lsRemove (key : String) (st : List (String × String)) :
    List (String × String) :=
  st.filter (fun kv => !(kv.1 == key))

/-- The `localStorage.getItem(key)` operation. -/
def lsGet (key : String) (st : List (String × String)) : Option String :=
  List.lookup key st

/-- The outcome of `API.post('/auth/logout')` as observed by
`AuthAPI.logout`: the awaited request either succeeds or throws. -/
inductive ServerOutcome where
  | success
  | failure (msg : String)
deriving DecidableEq, Repr

/-- The server call of `AuthAPI.logout` as a typed result. -/
def postLogout (o : ServerOutcome) : Except String Unit :=
  match o with
  | .success => .ok ()
  | .failure m => .error m

/-- Embedded from `src/frontend/js/api.js` lines 84-94 (`AuthAPI.logout`):
`try { await API.post('/auth/logout') } catch (error) { console.error(...) }
finally { authToken = null; localStorage.removeItem('authToken');
localStorage.removeItem('user') }` — the catch swallows the server error
(only logging it) and the finally block runs on both paths, so the function
returns a plain state, never an error. -/
def logout (o : ServerOutcome) (s : ClientState) : ClientState :=
  match postLogout o with
  | .ok _ =>
      { authToken := none,
        localStorage := lsRemove "user" (lsRemove "authToken" s.localStorage) }
  | .error _ =>
      { authToken := none,
        localStorage := lsRemove "user" (lsRemove "authToken" s.localStorage) }

/-- Embedded from `src/frontend/js/api.js` lines 105-107
(`AuthAPI.isAuthenticated`): `return !!authToken`. -/
def isAuthenticated (s : ClientState) : Bool :=
  s.authToken.isSome

/-! ## Concrete scenario data (spec §8) -/

/-- The §8 scenario emergency: requires "Paramedic", one volunteer needed,
radius 10km. -/
def scenEmergency : Emergency :=
  { eid := 1, lat := 0, lon := 0, priority := .high,
    requiredSkills := ["Paramedic"], volunteersNeeded := 1,
    status := .opened }

/-- Scenario volunteer A: verified Paramedic, 3km away, available. -/
def volA : Volunteer :=
  { vid := 1, verifiedSkills := ["Paramedic"], lat := 0, lon := 0,
    availability := .available, lastAvailabilityUpdate := 100 }

/-- Scenario volunteer B: verified Paramedic, 1km away, available. -/
def volB : Volunteer :=
  { vid := 2, verifiedSkills := ["Paramedic"], lat := 0, lon := 0,
    availability := .available, lastAvailabilityUpdate := 100 }

/-- The scenario distances to the emergency: 1km for B, 3km otherwise. -/
def scenDist : Volunteer → ℚ :=
  fun v => if v.vid = 2 then 1 else 3

/-- A volunteer with a malformed location (latitude 200). -/
def vBad : Volunteer :=
  { vid := 9, verifiedSkills := ["Paramedic"], lat := 200, lon := 0,
    availability := .available, lastAvailabilityUpdate := 50 }

/-! ## Helper lemmas -/

theorem countP_map_update_le (p : Assignment → Bool) (g : Assignment → Assignment)
    (l : List Assignment)
    (h : ∀ c ∈ l, p (g c) = true → p c = true) :
    (l.map g).countP p ≤ l.countP p := by
  induction l with
  | nil => simp
  | cons a t ih =>
      have hrec := ih (fun c hc => h c (List.mem_cons_of_mem a hc))
      have ha := h a (List.mem_cons_self a t)
      rw [List.map_cons, List.countP_cons, List.countP_cons]
      by_cases hpa : p (g a) = true
      · rw [if_pos hpa, if_pos (ha hpa)]; omega
      · rw [if_neg hpa]; split <;> omega

theorem stepSafe_tryAccept (now : Nat) : StepSafe (tryAccept now) := by
  intro a b hab
  by_cases hc : a.status = .requested ∧ now ≤ a.responseDeadline
  · rw [tryAccept, if_pos hc] at hab
    injection hab with hb
    subst hb
    exact ⟨rfl, rfl, rfl, Or.inl hc.1⟩
  · rw [tryAccept, if_neg hc] at hab
    exact absurd hab (by simp)

theorem stepSafe_tryDecline (now : Nat) : StepSafe (tryDecline now) := by
  intro a b hab
  by_cases hc : a.status = .requested ∧ now ≤ a.responseDeadline
  · rw [tryDecline, if_pos hc] at hab
    injection hab with hb
    subst hb
    exact ⟨rfl, rfl, rfl, Or.inl hc.1⟩
  · rw [tryDecline, if_neg hc] at hab
    exact absurd hab (by simp)

theorem stepSafe_tryComplete : StepSafe tryComplete := by
  intro a b hab
  by_cases hc : a.status = .accepted
  · rw [tryComplete, if_pos hc] at hab
    injection hab with hb
    subst hb
    exact ⟨rfl, rfl, rfl, Or.inr hc⟩
  · rw [tryComplete, if_neg hc] at hab
    exact absurd hab (by simp)

theorem stepSafe_tryCancel : StepSafe tryCancel := by
  intro a b hab
  by_cases hc : a.status = .requested ∨ a.status = .accepted
  · rw [tryCancel, if_pos hc] at hab
    injection hab with hb
    subst hb
    exact ⟨rfl, rfl, rfl, hc⟩
  · rw [tryCancel, if_neg hc] at hab
    exact absurd hab (by simp)

theorem stepSafe_respond (now : Nat) (d : Decision) (notes : String) :
    StepSafe (respondToAssignment now d notes) := by
  intro a b hab
  cases d with
  | accept =>
      rw [respondToAssignment] at hab
      cases h : tryAccept now a with
      | ok c =>
          rw [h] at hab
          simp only [] at hab
          injection hab with hb
          subst hb
          obtain ⟨h1, h2, h3, h4⟩ := stepSafe_tryAccept now a c h
          exact ⟨h1, h2, h3, h4⟩
      | error err =>
          rw [h] at hab
          exact absurd hab (by simp)
  | decline =>
      rw [respondToAssignment] at hab
      cases h : tryDecline now a with
      | ok c =>
          rw [h] at hab
          simp only [] at hab
          injection hab with hb
          subst hb
          obtain ⟨h1, h2, h3, h4⟩ := stepSafe_tryDecline now a c h
          exact ⟨h1, h2, h3, h4⟩
      | error err =>
          rw [h] at hab
          exact absurd hab (by simp)

theorem applyTransition_emergencies
    (f : Assignment → Except ErrKind Assignment) (i : Nat) (s : SysState) :
    (applyTransition f i s).1.emergencies = s.emergencies := by
  unfold applyTransition
  split
  · rfl
  · split <;> rfl

theorem applyTransition_nextAid
    (f : Assignment → Except ErrKind Assignment) (i : Nat) (s : SysState) :
    (applyTransition f i s).1.nextAid = s.nextAid := by
  unfold applyTransition
  split
  · rfl
  · split <;> rfl

theorem applyTransition_error
    (f : Assignment → Except ErrKind Assignment) (i : Nat) (s : SysState)
    (k : ErrKind) :
    (applyTransition f i s).2 = .error k → (applyTransition f i s).1 = s := by
  unfold applyTransition
  split
  · intro _; rfl
  · split
    · intro h; exact absurd h (by simp)
    · intro _; rfl

theorem applyTransition_countP_le
    {f : Assignment → Except ErrKind Assignment} (hf : StepSafe f)
    {s : SysState} (hnodup : (s.assignments.map Assignment.aid).Nodup)
    (i : Nat) (p : Assignment → Bool)
    (hp : ∀ c b : Assignment, b.emergencyId = c.emergencyId →
      b.volunteerId = c.volunteerId →
      (c.status = .requested ∨ c.status = .accepted) →
      p b = true → p c = true) :
    ((applyTransition f i s).1.assignments).countP p ≤
      s.assignments.countP p := by
  unfold applyTransition
  split
  · exact le_refl _
  case h_2 a hfind =>
    split
    case h_1 b hfb =>
      apply countP_map_update_le
      intro c hc hpc
      by_cases hci : (c.aid == i) = true
      · rw [if_pos hci] at hpc
        have hmem := List.mem_of_find?_eq_some hfind
        have hpa := List.find?_some hfind
        have hca : c = a := by
          apply List.inj_on_of_nodup_map hnodup hc hmem
          have h1 : c.aid = i := by simpa using hci
          have h2 : a.aid = i := by simpa using hpa
          rw [h1, h2]
        subst hca
        obtain ⟨-, hbe, hbv, hst⟩ := hf c b hfb
        exact hp c b hbe hbv hst hpc
      · rwa [if_neg hci] at hpc
    case h_2 err hfb =>
      exact le_refl _

theorem applyTransition_aids
    {f : Assignment → Except ErrKind Assignment} (hf : StepSafe f)
    (i : Nat) (s : SysState) :
    (applyTransition f i s).1.assignments.map Assignment.aid =
      s.assignments.map Assignment.aid := by
  unfold applyTransition
  split
  · rfl
  case h_2 a hfind =>
    split
    case h_1 b hfb =>
      have hpa := List.find?_some hfind
      have hai : a.aid = i := by simpa using hpa
      have hba : b.aid = a.aid := (hf a b hfb).1
      show List.map Assignment.aid (List.map _ s.assignments) = _
      rw [List.map_map]
      apply List.map_congr_left
      intro c _
      by_cases hci : (c.aid == i) = true
      · have hc2 : c.aid = i := by simpa using hci
        simp only [Function.comp]
        rw [if_pos hci, hba, hai, hc2]
      · simp only [Function.comp]
        rw [if_neg hci]
    case h_2 err hfb => rfl

theorem slotCount_applyTransition_le
    {f : Assignment → Except ErrKind Assignment} (hf : StepSafe f)
    {s : SysState} (hnodup : (s.assignments.map Assignment.aid).Nodup)
    (i e : Nat) :
    slotCount (applyTransition f i s).1 e ≤ slotCount s e := by
  apply applyTransition_countP_le hf hnodup
  intro c b hbe hbv hst hpb
  simp only [countsToward, Bool.and_eq_true, Bool.not_eq_true',
    beq_iff_eq, beq_eq_false_iff_ne] at hpb ⊢
  refine ⟨⟨?_, ?_⟩, ?_⟩
  · rw [← hbe]; exact hpb.1.1
  · rcases hst with h | h <;> rw [h] <;> decide
  · rcases hst with h | h <;> rw [h] <;> decide

theorem pairCount_applyTransition_le
    {f : Assignment → Except ErrKind Assignment} (hf : StepSafe f)
    {s : SysState} (hnodup : (s.assignments.map Assignment.aid).Nodup)
    (i e v : Nat) :
    pairCount (applyTransition f i s).1 e v ≤ pairCount s e v := by
  apply applyTransition_countP_le hf hnodup
  intro c b hbe hbv hst hpb
  simp only [pairMatch, Bool.and_eq_true, beq_iff_eq] at hpb ⊢
  refine ⟨⟨?_, ?_⟩, ?_⟩
  · rw [← hbe]; exact hpb.1.1
  · rw [← hbv]; exact hpb.1.2
  · rcases hst with h | h <;> rw [h] <;> decide

theorem activeFor_false_pairCount {s : SysState} {e v : Nat}
    (h : activeFor s e v = false) : pairCount s e v = 0 := by
  rw [pairCount, List.countP_eq_zero]
  intro a ha hpa
  have hany : s.assignments.any (pairMatch e v) = true :=
    List.any_eq_true.mpr ⟨a, ha, hpa⟩
  rw [activeFor] at h
  rw [h] at hany
  exact Bool.false_ne_true hany

theorem createAssignment_ok {s s' : SysState} {e v now dl : Nat}
    (h : createAssignment s e v now dl = .ok s') :
    activeFor s e v = false ∧
    s'.emergencies = s.emergencies ∧
    s'.assignments = s.assignments ++ [mkOffer s.nextAid e v now dl] ∧
    s'.nextAid = s.nextAid + 1 := by
  by_cases hact : activeFor s e v = true
  · rw [createAssignment, if_pos hact] at h
    exact absurd h (by simp)
  · rw [createAssignment, if_neg hact] at h
    injection h with h'
    subst h'
    exact ⟨by simpa using hact, rfl, rfl, rfl⟩

theorem createAssignment_duplicate {s : SysState} {e v : Nat} (now dl : Nat)
    (h : activeFor s e v = true) :
    createAssignment s e v now dl = .error .duplicateAssignment := by
  rw [createAssignment, if_pos h]

theorem createAssignment_error_active {s : SysState} {e v now dl : Nat}
    {k : ErrKind} (h : createAssignment s e v now dl = .error k) :
    activeFor s e v = true := by
  by_cases hact : activeFor s e v = true
  · exact hact
  · rw [createAssignment, if_neg hact] at h
    exact absurd h (by simp)

theorem countsToward_mkOffer (idv e v now dl e' : Nat) :
    countsToward e' (mkOffer idv e v now dl) = (e == e') := by
  cases h : (e == e') <;> simp [countsToward, mkOffer, h]

theorem pairMatch_mkOffer (idv e v now dl e' v' : Nat) :
    pairMatch e' v' (mkOffer idv e v now dl) = ((e == e') && (v == v')) := by
  simp [pairMatch, mkOffer, AStatus.nonTerminal]

theorem createOk_slot {s s' : SysState} {e v now dl : Nat}
    (h : createAssignment s e v now dl = .ok s') (e' : Nat) :
    slotCount s' e' = slotCount s e' + (if (e == e') = true then 1 else 0) := by
  obtain ⟨-, -, hasg, -⟩ := createAssignment_ok h
  rw [slotCount, hasg, List.countP_append, slotCount]
  congr 1
  simp [List.countP_cons, countsToward_mkOffer]

theorem createOk_pair {s s' : SysState} {e v now dl : Nat}
    (h : createAssignment s e v now dl = .ok s') (e' v' : Nat) :
    pairCount s' e' v' =
      pairCount s e' v' + (if ((e == e') && (v == v')) = true then 1 else 0) := by
  obtain ⟨-, -, hasg, -⟩ := createAssignment_ok h
  rw [pairCount, hasg, List.countP_append, pairCount]
  congr 1
  simp [List.countP_cons, pairMatch_mkOffer]

theorem createOk_active_self {s s' : SysState} {e v now dl : Nat}
    (h : createAssignment s e v now dl = .ok s') :
    activeFor s' e v = true := by
  obtain ⟨-, -, hasg, -⟩ := createAssignment_ok h
  rw [activeFor, hasg, List.any_append]
  simp [pairMatch_mkOffer]

theorem offerLoop_nil (e now dl : Nat) (s : SysState) (n : Nat) :
    offerLoop e now dl s [] n = s := rfl

theorem offerLoop_zero (e now dl : Nat) (s : SysState) (l : List Nat) :
    offerLoop e now dl s l 0 = s := by
  cases l <;> rfl

theorem offerLoop_cons_ok {s s1 : SysState} {e v now dl : Nat}
    (rest : List Nat) (n : Nat)
    (h : createAssignment s e v now dl = .ok s1) :
    offerLoop e now dl s (v :: rest) (n + 1) = offerLoop e now dl s1 rest n := by
  simp only [offerLoop, h]

theorem offerLoop_cons_err {s : SysState} {e v now dl : Nat} {k : ErrKind}
    (rest : List Nat) (n : Nat)
    (h : createAssignment s e v now dl = .error k) :
    offerLoop e now dl s (v :: rest) (n + 1) =
      offerLoop e now dl s rest (n + 1) := by
  simp only [offerLoop, h]

theorem offerLoop_shape (e now dl : Nat) (l : List Nat) :
    ∀ (s : SysState) (n : Nat), ∃ new : List Assignment,
      (offerLoop e now dl s l n).assignments = s.assignments ++ new ∧
      (offerLoop e now dl s l n).emergencies = s.emergencies := by
  induction l with
  | nil => intro s n; exact ⟨[], by simp [offerLoop_nil], rfl⟩
  | cons v rest ih =>
      intro s n
      cases n with
      | zero => exact ⟨[], by simp [offerLoop_zero], rfl⟩
      | succ m =>
          cases hc : createAssignment s e v now dl with
          | ok s1 =>
              obtain ⟨-, hem, hasg, -⟩ := createAssignment_ok hc
              obtain ⟨new, h1, h2⟩ := ih s1 m
              refine ⟨mkOffer s.nextAid e v now dl :: new, ?_, ?_⟩
              · rw [offerLoop_cons_ok rest m hc, h1, hasg, List.append_assoc]
                rfl
              · rw [offerLoop_cons_ok rest m hc, h2, hem]
          | error k =>
              obtain ⟨new, h1, h2⟩ := ih s (m + 1)
              exact ⟨new, by rw [offerLoop_cons_err rest m hc]; exact h1,
                by rw [offerLoop_cons_err rest m hc]; exact h2⟩

theorem offerLoop_emergencies (e now dl : Nat) (l : List Nat) (s : SysState)
    (n : Nat) :
    (offerLoop e now dl s l n).emergencies = s.emergencies :=
  (offerLoop_shape e now dl l s n).choose_spec.2

theorem offerLoop_active_mono {s : SysState} {e' v' : Nat}
    (e now dl : Nat) (l : List Nat) (n : Nat)
    (h : activeFor s e' v' = true) :
    activeFor (offerLoop e now dl s l n) e' v' = true := by
  obtain ⟨new, h1, -⟩ := offerLoop_shape e now dl l s n
  rw [activeFor, h1, List.any_append]
  rw [activeFor] at h
  rw [h]
  rfl

theorem offerLoop_slot_le (e now dl : Nat) (l : List Nat) :
    ∀ (s : SysState) (n : Nat),
      slotCount (offerLoop e now dl s l n) e ≤ slotCount s e + n := by
  induction l with
  | nil => intro s n; rw [offerLoop_nil]; omega
  | cons v rest ih =>
      intro s n
      cases n with
      | zero => rw [offerLoop_zero]; omega
      | succ m =>
          cases hc : createAssignment s e v now dl with
          | ok s1 =>
              rw [offerLoop_cons_ok rest m hc]
              have h1 := ih s1 m
              have h2 := createOk_slot hc e
              simp at h2
              omega
          | error k =>
              rw [offerLoop_cons_err rest m hc]
              exact ih s (m + 1)

theorem offerLoop_slot_other (e now dl : Nat) (l : List Nat) :
    ∀ (s : SysState) (n e' : Nat), (e == e') = false →
      slotCount (offerLoop e now dl s l n) e' = slotCount s e' := by
  induction l with
  | nil => intro s n e' _; rw [offerLoop_nil]
  | cons v rest ih =>
      intro s n e' hne
      cases n with
      | zero => rw [offerLoop_zero]
      | succ m =>
          cases hc : createAssignment s e v now dl with
          | ok s1 =>
              rw [offerLoop_cons_ok rest m hc, ih s1 m e' hne]
              have h2 := createOk_slot hc e'
              rw [hne] at h2
              simpa using h2
          | error k =>
              rw [offerLoop_cons_err rest m hc]
              exact ih s (m + 1) e' hne

theorem offerLoop_progress (e now dl : Nat) (l : List Nat) :
    ∀ (s : SysState) (n : Nat),
      slotCount (offerLoop e now dl s l n) e = slotCount s e + n ∨
      ∀ v ∈ l, activeFor (offerLoop e now dl s l n) e v = true := by
  induction l with
  | nil =>
      intro s n
      right
      intro v hv
      cases hv
  | cons v rest ih =>
      intro s n
      cases n with
      | zero =>
          left
          rw [offerLoop_zero]
          omega
      | succ m =>
          cases hc : createAssignment s e v now dl with
          | ok s1 =>
              rw [offerLoop_cons_ok rest m hc]
              rcases ih s1 m with h | h
              · left
                have h2 := createOk_slot hc e
                simp at h2
                omega
              · right
                intro v' hv'
                rcases List.mem_cons.mp hv' with hv0 | hmem
                · subst hv0
                  exact offerLoop_active_mono e now dl rest m
                    (createOk_active_self hc)
                · exact h v' hmem
          | error k =>
              rw [offerLoop_cons_err rest m hc]
              rcases ih s (m + 1) with h | h
              · left
                exact h
              · right
                intro v' hv'
                rcases List.mem_cons.mp hv' with hv0 | hmem
                · subst hv0
                  exact offerLoop_active_mono e now dl rest (m + 1)
                    (createAssignment_error_active hc)
                · exact h v' hmem

theorem offerLoop_all_active (e now dl : Nat) (l : List Nat) :
    ∀ (s : SysState) (n : Nat), (∀ v ∈ l, activeFor s e v = true) →
      offerLoop e now dl s l n = s := by
  induction l with
  | nil => intro s n _; rfl
  | cons v rest ih =>
      intro s n hall
      cases n with
      | zero => exact offerLoop_zero e now dl s (v :: rest)
      | succ m =>
          rw [offerLoop_cons_err rest m
            (createAssignment_duplicate now dl (hall v (List.mem_cons_self v rest)))]
          exact ih s (m + 1) (fun v' hv' => hall v' (List.mem_cons_of_mem v hv'))

theorem createOk_preserves {s s' : SysState} {e v now dl : Nat}
    (h : createAssignment s e v now dl = .ok s')
    (h1 : (s.assignments.map Assignment.aid).Nodup)
    (h2 : ∀ a ∈ s.assignments, a.aid < s.nextAid)
    (h3 : ∀ e' v', pairCount s e' v' ≤ 1) :
    (s'.assignments.map Assignment.aid).Nodup ∧
    (∀ a ∈ s'.assignments, a.aid < s'.nextAid) ∧
    (∀ e' v', pairCount s' e' v' ≤ 1) := by
  obtain ⟨hact, hem, hasg, hnext⟩ := createAssignment_ok h
  refine ⟨?_, ?_, ?_⟩
  · rw [hasg, List.map_append]
    apply List.Nodup.append h1 (by simp)
    intro x hx1 hx2
    simp [mkOffer] at hx2
    simp [List.mem_map] at hx1
    obtain ⟨a, ha, hxa⟩ := hx1
    have := h2 a ha
    omega
  · intro a ha
    rw [hasg] at ha
    rw [hnext]
    rcases List.mem_append.mp ha with hmem | hmem
    · have := h2 a hmem
      omega
    · have haa : a = mkOffer s.nextAid e v now dl := by simpa using hmem
      subst haa
      simp [mkOffer]
  · intro e' v'
    rw [createOk_pair h e' v']
    by_cases hcase : ((e == e') && (v == v')) = true
    · rw [if_pos hcase]
      simp only [Bool.and_eq_true, beq_iff_eq] at hcase
      obtain ⟨he, hv⟩ := hcase
      subst he
      subst hv
      have := activeFor_false_pairCount hact
      omega
    · rw [if_neg hcase]
      have := h3 e' v'
      omega

theorem offerLoop_core (e now dl : Nat) (l : List Nat) :
    ∀ (s : SysState) (n : Nat),
      (s.assignments.map Assignment.aid).Nodup →
      (∀ a ∈ s.assignments, a.aid < s.nextAid) →
      (∀ e' v', pairCount s e' v' ≤ 1) →
      ((offerLoop e now dl s l n).assignments.map Assignment.aid).Nodup ∧
      (∀ a ∈ (offerLoop e now dl s l n).assignments,
        a.aid < (offerLoop e now dl s l n).nextAid) ∧
      (∀ e' v', pairCount (offerLoop e now dl s l n) e' v' ≤ 1) := by
  induction l with
  | nil =>
      intro s n h1 h2 h3
      simp only [offerLoop_nil]
      exact ⟨h1, h2, h3⟩
  | cons v rest ih =>
      intro s n h1 h2 h3
      cases n with
      | zero =>
          simp only [offerLoop_zero]
          exact ⟨h1, h2, h3⟩
      | succ m =>
          cases hc : createAssignment s e v now dl with
          | ok s1 =>
              simp only [offerLoop_cons_ok rest m hc]
              obtain ⟨g1, g2, g3⟩ := createOk_preserves hc h1 h2 h3
              exact ih s1 m g1 g2 g3
          | error k =>
              simp only [offerLoop_cons_err rest m hc]
              exact ih s (m + 1) h1 h2 h3

theorem matchRequest_inv {s : SysState} (hs : SysInv s) (e : Nat)
    (ranked : List Nat) (now tm : Nat) :
    SysInv (matchRequest s e ranked now tm) := by
  unfold matchRequest
  split
  · exact hs
  · rename_i em hfind
    obtain ⟨g1, g2, g3⟩ := offerLoop_core e now (now + tm) ranked s
      (em.volunteersNeeded - slotCount s e) hs.aidsNodup hs.aidsFresh hs.pairBound
    refine ⟨?_, g1, g2, ?_, g3⟩
    · rw [offerLoop_emergencies]
      exact hs.eidsNodup
    · intro em' hmem'
      rw [offerLoop_emergencies] at hmem'
      have hfmem := List.mem_of_find?_eq_some hfind
      have hfeq : em.eid = e := by simpa using (List.find?_some hfind)
      by_cases hcase : (e == em'.eid) = true
      · have heq' : e = em'.eid := by simpa using hcase
        have hem' : em' = em :=
          List.inj_on_of_nodup_map hs.eidsNodup hmem' hfmem (by rw [← heq', hfeq])
        rw [hem']
        have hle := offerLoop_slot_le e now (now + tm) ranked s
          (em.volunteersNeeded - slotCount s e)
        have hb := hs.slotBound em hfmem
        rw [hfeq] at hb ⊢
        omega
      · have hne : (e == em'.eid) = false := by simpa using hcase
        rw [offerLoop_slot_other e now (now + tm) ranked s _ em'.eid hne]
        exact hs.slotBound em' hmem'

theorem applyTransition_inv {f : Assignment → Except ErrKind Assignment}
    (hf : StepSafe f) {s : SysState} (hs : SysInv s) (i : Nat) :
    SysInv (applyTransition f i s).1 := by
  refine ⟨?_, ?_, ?_, ?_, ?_⟩
  · rw [applyTransition_emergencies]
    exact hs.eidsNodup
  · rw [applyTransition_aids hf]
    exact hs.aidsNodup
  · intro a ha
    rw [applyTransition_nextAid]
    have hmm : a.aid ∈ (applyTransition f i s).1.assignments.map Assignment.aid :=
      List.mem_map_of_mem _ ha
    rw [applyTransition_aids hf] at hmm
    obtain ⟨c, hc, hceq⟩ := List.mem_map.mp hmm
    have := hs.aidsFresh c hc
    omega
  · intro em hmem
    rw [applyTransition_emergencies] at hmem
    exact le_trans (slotCount_applyTransition_le hf hs.aidsNodup i em.eid)
      (hs.slotBound em hmem)
  · intro e v
    exact le_trans (pairCount_applyTransition_le hf hs.aidsNodup i e v)
      (hs.pairBound e v)

theorem reachable_inv {s : SysState} (h : Reachable s) : SysInv s := by
  induction h with
  | init ems hn =>
      refine ⟨hn, by simp, by simp, ?_, ?_⟩
      · intro em hmem
        simp [slotCount]
      · intro e v
        simp [pairCount]
  | matchStep e ranked now tm hr ih => exact matchRequest_inv ih e ranked now tm
  | acceptStep i now hr ih => exact applyTransition_inv (stepSafe_tryAccept now) ih i
  | declineStep i now hr ih => exact applyTransition_inv (stepSafe_tryDecline now) ih i
  | completeStep i hr ih => exact applyTransition_inv stepSafe_tryComplete ih i
  | cancelStep i hr ih => exact applyTransition_inv stepSafe_tryCancel ih i
  | respondStep i now d notes hr ih =>
      exact applyTransition_inv (stepSafe_respond now d notes) ih i

theorem acceptedCount_le_slotCount (s : SysState) (e : Nat) :
    acceptedCount s e ≤ slotCount s e := by
  apply List.countP_mono_left
  intro a ha hpa
  simp only [Bool.and_eq_true, beq_iff_eq] at hpa
  simp only [countsToward, Bool.and_eq_true, Bool.not_eq_true',
    beq_iff_eq, beq_eq_false_iff_ne]
  refine ⟨⟨hpa.1, ?_⟩, ?_⟩
  · rw [hpa.2]
    decide
  · rw [hpa.2]
    decide

theorem tryAccept_error {now : Nat} {a : Assignment} {k : ErrKind}
    (h : tryAccept now a = .error k) : k = .illegalTransition := by
  by_cases hc : a.status = .requested ∧ now ≤ a.responseDeadline
  · rw [tryAccept, if_pos hc] at h
    exact absurd h (by simp)
  · rw [tryAccept, if_neg hc] at h
    injection h with h'
    exact h'.symm

theorem tryDecline_error {now : Nat} {a : Assignment} {k : ErrKind}
    (h : tryDecline now a = .error k) : k = .illegalTransition := by
  by_cases hc : a.status = .requested ∧ now ≤ a.responseDeadline
  · rw [tryDecline, if_pos hc] at h
    exact absurd h (by simp)
  · rw [tryDecline, if_neg hc] at h
    injection h with h'
    exact h'.symm

theorem offerLoop_then_again (e now dl : Nat) (ranked : List Nat)
    (s : SysState) (needed : Nat) :
    offerLoop e now dl (offerLoop e now dl s ranked (needed - slotCount s e))
      ranked
      (needed - slotCount (offerLoop e now dl s ranked (needed - slotCount s e)) e) =
    offerLoop e now dl s ranked (needed - slotCount s e) := by
  rcases offerLoop_progress e now dl ranked s (needed - slotCount s e) with hp | hp
  · have hz : needed -
        slotCount (offerLoop e now dl s ranked (needed - slotCount s e)) e = 0 := by
      omega
    rw [hz, offerLoop_zero]
  · exact offerLoop_all_active e now dl ranked _ _ hp

/-! ## Claim theorems -/

/-- C1: the only legal Assignment transitions are requested→accepted,
requested→declined, accepted→completed, accepted→cancelled and
requested→cancelled; declined, completed and cancelled are terminal, and
any transition attempted from a terminal state, or an accept/decline
attempted after `responseDeadline` has passed, fails with
`IllegalTransition` leaving the Assignment (and the system state)
unchanged; in particular a second `complete` on an already-completed
Assignment fails with `IllegalTransition`. -/
theorem assignment_lifecycle_legal_transitions :
    (∀ (now : Nat) (a : Assignment),
      ((∃ b, tryAccept now a = .ok b ∧ b.status = .accepted) ↔
        (a.status = .requested ∧ now ≤ a.responseDeadline)) ∧
      ((∃ b, tryDecline now a = .ok b ∧ b.status = .declined) ↔
        (a.status = .requested ∧ now ≤ a.responseDeadline)) ∧
      ((∃ b, tryComplete a = .ok b ∧ b.status = .completed) ↔
        a.status = .accepted) ∧
      ((∃ b, tryCancel a = .ok b ∧ b.status = .cancelled) ↔
        (a.status = .requested ∨ a.status = .accepted)) ∧
      (a.status.isTerminal = true →
        tryAccept now a = .error .illegalTransition ∧
        tryDecline now a = .error .illegalTransition ∧
        tryComplete a = .error .illegalTransition ∧
        tryCancel a = .error .illegalTransition) ∧
      (a.responseDeadline < now →
        tryAccept now a = .error .illegalTransition ∧
        tryDecline now a = .error .illegalTransition) ∧
      (∀ b, tryComplete a = .ok b →
        tryComplete b = .error .illegalTransition)) ∧
    (∀ (f : Assignment → Except ErrKind Assignment) (i : Nat) (s : SysState)
      (k : ErrKind), (applyTransition f i s).2 = .error k →
        (applyTransition f i s).1 = s) := by
  refine ⟨fun now a => ⟨?_, ?_, ?_, ?_, ?_, ?_, ?_⟩,
    fun f i s k => applyTransition_error f i s k⟩
  · constructor
    · rintro ⟨b, hb, -⟩
      by_cases hc : a.status = .requested ∧ now ≤ a.responseDeadline
      · exact hc
      · rw [tryAccept, if_neg hc] at hb
        exact absurd hb (by simp)
    · intro hc
      exact ⟨{ a with status := .accepted, responseTimestamp := some now },
        by rw [tryAccept, if_pos hc], rfl⟩
  · constructor
    · rintro ⟨b, hb, -⟩
      by_cases hc : a.status = .requested ∧ now ≤ a.responseDeadline
      · exact hc
      · rw [tryDecline, if_neg hc] at hb
        exact absurd hb (by simp)
    · intro hc
      exact ⟨{ a with status := .declined, responseTimestamp := some now },
        by rw [tryDecline, if_pos hc], rfl⟩
  · constructor
    · rintro ⟨b, hb, -⟩
      by_cases hc : a.status = .accepted
      · exact hc
      · rw [tryComplete, if_neg hc] at hb
        exact absurd hb (by simp)
    · intro hc
      exact ⟨{ a with status := .completed },
        by rw [tryComplete, if_pos hc], rfl⟩
  · constructor
    · rintro ⟨b, hb, -⟩
      by_cases hc : a.status = .requested ∨ a.status = .accepted
      · exact hc
      · rw [tryCancel, if_neg hc] at hb
        exact absurd hb (by simp)
    · intro hc
      exact ⟨{ a with status := .cancelled },
        by rw [tryCancel, if_pos hc], rfl⟩
  · intro ht
    cases hst : a.status with
    | requested => rw [hst] at ht; exact absurd ht (by decide)
    | accepted => rw [hst] at ht; exact absurd ht (by decide)
    | declined =>
        exact ⟨by rw [tryAccept, if_neg (by simp [hst])],
          by rw [tryDecline, if_neg (by simp [hst])],
          by rw [tryComplete, if_neg (by simp [hst])],
          by rw [tryCancel, if_neg (by simp [hst])]⟩
    | completed =>
        exact ⟨by rw [tryAccept, if_neg (by simp [hst])],
          by rw [tryDecline, if_neg (by simp [hst])],
          by rw [tryComplete, if_neg (by simp [hst])],
          by rw [tryCancel, if_neg (by simp [hst])]⟩
    | cancelled =>
        exact ⟨by rw [tryAccept, if_neg (by simp [hst])],
          by rw [tryDecline, if_neg (by simp [hst])],
          by rw [tryComplete, if_neg (by simp [hst])],
          by rw [tryCancel, if_neg (by simp [hst])]⟩
  · intro hlt
    refine ⟨?_, ?_⟩
    · rw [tryAccept, if_neg (fun hcon => absurd hcon.2 (by omega))]
    · rw [tryDecline, if_neg (fun hcon => absurd hcon.2 (by omega))]
  · intro b hb
    by_cases hc : a.status = .accepted
    · rw [tryComplete, if_pos hc] at hb
      injection hb with hb'
      subst hb'
      rw [tryComplete, if_neg (by simp)]
    · rw [tryComplete, if_neg hc] at hb
      exact absurd hb (by simp)

/-- C1 witness: a concrete accepted assignment completes once, and the
second `complete` call on it fails with `IllegalTransition`. -/
theorem assignment_lifecycle_witness :
    tryComplete wAccepted = .ok wCompleted ∧
    tryComplete wCompleted = .error .illegalTransition := by
  refine ⟨rfl, ?_⟩
  have h7 := (assignment_lifecycle_legal_transitions.1 0 wAccepted).2.2.2.2.2.2
  exact h7 wCompleted rfl

/-- C8: `RespondToAssignment` takes a decision drawn exactly from the
two-element set of `accept` and `decline`, and always returns either the
updated Assignment or an `IllegalTransition` result. -/
theorem respond_decision_is_binary :
    (∀ d : Decision, d = .accept ∨ d = .decline) ∧
    (∀ (now : Nat) (d : Decision) (notes : String) (a : Assignment),
      (∃ b, respondToAssignment now d notes a = .ok b) ∨
      respondToAssignment now d notes a = .error .illegalTransition) := by
  constructor
  · intro d
    cases d
    · exact Or.inl rfl
    · exact Or.inr rfl
  · intro now d notes a
    cases d with
    | accept =>
        cases h : tryAccept now a with
        | ok c =>
            left
            exact ⟨{ c with notes := notes }, by rw [respondToAssignment, h]⟩
        | error k =>
            right
            rw [respondToAssignment, h, tryAccept_error h]
    | decline =>
        cases h : tryDecline now a with
        | ok c =>
            left
            exact ⟨{ c with notes := notes }, by rw [respondToAssignment, h]⟩
        | error k =>
            right
            rw [respondToAssignment, h, tryDecline_error h]

/-- C2: in every reachable system state, the number of non-declined,
non-cancelled Assignments of each EmergencyRequest — in particular the
number of accepted Assignments — never exceeds its `volunteersNeeded`;
reachability closes the initial states under all the core operations. -/
theorem slot_bound_invariant :
    ∀ s : SysState, Reachable s → ∀ em ∈ s.emergencies,
      slotCount s em.eid ≤ em.volunteersNeeded ∧
      acceptedCount s em.eid ≤ em.volunteersNeeded := by
  intro s hs em hmem
  have h := (reachable_inv hs).slotBound em hmem
  exact ⟨h, le_trans (acceptedCount_le_slotCount s em.eid) h⟩

/-- C2 witness: the bound evaluated in the concrete reachable state
`wState1` (one emergency, one requested assignment). -/
theorem slot_bound_witness :
    slotCount wState1 wEmergency.eid ≤ wEmergency.volunteersNeeded ∧
    acceptedCount wState1 wEmergency.eid ≤ wEmergency.volunteersNeeded := by
  have hr : Reachable wState1 :=
    Reachable.matchStep 7 [3] 0 30 (Reachable.init [wEmergency] (by decide))
  exact slot_bound_invariant wState1 hr wEmergency (by decide)

/-- C3: in every reachable state at most one Assignment per
(volunteer, emergency) pair is non-terminal, and an attempt to create a
second non-terminal Assignment for the same pair fails with
`DuplicateAssignment`. -/
theorem unique_nonterminal_assignment_per_pair :
    (∀ s : SysState, Reachable s → ∀ e v, pairCount s e v ≤ 1) ∧
    (∀ (s : SysState) (e v now dl : Nat), activeFor s e v = true →
      createAssignment s e v now dl = .error .duplicateAssignment) := by
  exact ⟨fun s hs e v => (reachable_inv hs).pairBound e v,
    fun s e v now dl h => createAssignment_duplicate now dl h⟩

/-- C3 witness: in the concrete reachable state `wState1` the pair bound
holds, and creating a second assignment for the already-offered pair
(emergency 7, volunteer 3) fails with `DuplicateAssignment`. -/
theorem unique_nonterminal_witness :
    pairCount wState1 7 3 ≤ 1 ∧
    createAssignment wState1 7 3 0 10 = .error .duplicateAssignment := by
  have hr : Reachable wState1 :=
    Reachable.matchStep 7 [3] 0 30 (Reachable.init [wEmergency] (by decide))
  exact ⟨(unique_nonterminal_assignment_per_pair.1 wState1 hr 7 3),
    unique_nonterminal_assignment_per_pair.2 wState1 7 3 0 10 (by decide)⟩

/-- C4: `matchRequest` is idempotent — a second invocation immediately
after a first one, with no intervening state change, creates zero
additional Assignments and leaves the state produced by the first
invocation unchanged. -/
theorem matchRequest_idempotent :
    ∀ (s : SysState) (e : Nat) (ranked : List Nat) (now tm : Nat),
      matchRequest (matchRequest s e ranked now tm) e ranked now tm =
        matchRequest s e ranked now tm := by
  intro s e ranked now tm
  cases hfind : s.emergencies.find? (fun em => em.eid == e) with
  | none =>
      have h1 : matchRequest s e ranked now tm = s := by
        simp only [matchRequest, hfind]
      rw [h1, h1]
  | some em =>
      have hone : matchRequest s e ranked now tm =
          offerLoop e now (now + tm) s ranked
            (em.volunteersNeeded - slotCount s e) := by
        simp only [matchRequest, hfind]
      rw [hone]
      have hfind1 : (offerLoop e now (now + tm) s ranked
          (em.volunteersNeeded - slotCount s e)).emergencies.find?
          (fun em => em.eid == e) = some em := by
        rw [offerLoop_emergencies]
        exact hfind
      have htwo : matchRequest (offerLoop e now (now + tm) s ranked
          (em.volunteersNeeded - slotCount s e)) e ranked now tm =
          offerLoop e now (now + tm)
            (offerLoop e now (now + tm) s ranked
              (em.volunteersNeeded - slotCount s e)) ranked
            (em.volunteersNeeded -
              slotCount (offerLoop e now (now + tm) s ranked
                (em.volunteersNeeded - slotCount s e)) e) := by
        simp only [matchRequest, hfind1]
      rw [htwo]
      exact offerLoop_then_again e now (now + tm) ranked s em.volunteersNeeded

theorem lexAsc_trans {α : Type} [LinearOrder α] {x y z : α} {p q r : Prop}
    (hpq : x < y ∨ (x = y ∧ p)) (hqr : y < z ∨ (y = z ∧ q))
    (hr : p → q → r) : x < z ∨ (x = z ∧ r) := by
  rcases hpq with h1 | ⟨h1, hp⟩
  · rcases hqr with h2 | ⟨h2, hq⟩
    · exact Or.inl (lt_trans h1 h2)
    · exact Or.inl (by rw [← h2]; exact h1)
  · rcases hqr with h2 | ⟨h2, hq⟩
    · exact Or.inl (by rw [h1]; exact h2)
    · exact Or.inr ⟨h1.trans h2, hr hp hq⟩

theorem lexDesc_trans {α : Type} [LinearOrder α] {x y z : α} {p q r : Prop}
    (hpq : y < x ∨ (x = y ∧ p)) (hqr : z < y ∨ (y = z ∧ q))
    (hr : p → q → r) : z < x ∨ (x = z ∧ r) := by
  rcases hpq with h1 | ⟨h1, hp⟩
  · rcases hqr with h2 | ⟨h2, hq⟩
    · exact Or.inl (lt_trans h2 h1)
    · exact Or.inl (by rw [← h2]; exact h1)
  · rcases hqr with h2 | ⟨h2, hq⟩
    · exact Or.inl (by rw [h1]; exact h2)
    · exact Or.inr ⟨h1.trans h2, hr hp hq⟩

theorem lexAsc_antisymm {α : Type} [LinearOrder α] {x y : α} {p q : Prop}
    (h1 : x < y ∨ (x = y ∧ p)) (h2 : y < x ∨ (y = x ∧ q)) :
    x = y ∧ p ∧ q := by
  rcases h1 with h1 | ⟨rfl, hp⟩
  · rcases h2 with h2 | ⟨rfl, hq⟩
    · exact absurd h2 (lt_asymm h1)
    · exact absurd h1 (lt_irrefl _)
  · rcases h2 with h2 | ⟨h2, hq⟩
    · exact absurd h2 (lt_irrefl _)
    · exact ⟨rfl, hp, hq⟩

theorem lexDesc_antisymm {α : Type} [LinearOrder α] {x y : α} {p q : Prop}
    (h1 : y < x ∨ (x = y ∧ p)) (h2 : x < y ∨ (y = x ∧ q)) :
    x = y ∧ p ∧ q := by
  rcases h1 with h1 | ⟨rfl, hp⟩
  · rcases h2 with h2 | ⟨rfl, hq⟩
    · exact absurd h2 (lt_asymm h1)
    · exact absurd h1 (lt_irrefl _)
  · rcases h2 with h2 | ⟨h2, hq⟩
    · exact absurd h2 (lt_irrefl _)
    · exact ⟨rfl, hp, hq⟩

theorem rankLE_iff (em : Emergency) (dist : Volunteer → ℚ) (a b : Volunteer) :
    rankLE em dist a b = true ↔ rankRel em dist a b := by
  simp [rankLE, rankRel]

theorem rankRel_total (em : Emergency) (dist : Volunteer → ℚ)
    (a b : Volunteer) : rankRel em dist a b ∨ rankRel em dist b a := by
  unfold rankRel
  rcases lt_trichotomy (skillOverlap em a) (skillOverlap em b) with h1 | h1 | h1
  · right; left; exact h1
  · rcases lt_trichotomy (dist a) (dist b) with h2 | h2 | h2
    · left; right; exact ⟨h1, Or.inl h2⟩
    · rcases lt_trichotomy a.lastAvailabilityUpdate b.lastAvailabilityUpdate
        with h3 | h3 | h3
      · right; right; exact ⟨h1.symm, Or.inr ⟨h2.symm, Or.inl h3⟩⟩
      · rcases le_total a.vid b.vid with h4 | h4
        · left; right; exact ⟨h1, Or.inr ⟨h2, Or.inr ⟨h3, h4⟩⟩⟩
        · right; right; exact ⟨h1.symm, Or.inr ⟨h2.symm, Or.inr ⟨h3.symm, h4⟩⟩⟩
      · left; right; exact ⟨h1, Or.inr ⟨h2, Or.inl h3⟩⟩
    · right; right; exact ⟨h1.symm, Or.inl h2⟩
  · left; left; exact h1

theorem rankRel_trans {em : Emergency} {dist : Volunteer → ℚ}
    {a b c : Volunteer} (h1 : rankRel em dist a b) (h2 : rankRel em dist b c) :
    rankRel em dist a c :=
  lexDesc_trans h1 h2 (fun p q =>
    lexAsc_trans p q (fun p2 q2 =>
      lexDesc_trans p2 q2 (fun p3 q3 => le_trans p3 q3)))

theorem rankRel_antisymm {em : Emergency} {dist : Volunteer → ℚ}
    {a b : Volunteer} (h1 : rankRel em dist a b) (h2 : rankRel em dist b a) :
    a.vid = b.vid := by
  obtain ⟨-, p, q⟩ := lexDesc_antisymm h1 h2
  obtain ⟨-, p2, q2⟩ := lexAsc_antisymm p q
  obtain ⟨-, p3, q3⟩ := lexDesc_antisymm p2 q2
  exact le_antisymm p3 q3

theorem insertRanked_perm (le : Volunteer → Volunteer → Bool) (v : Volunteer)
    (l : List Volunteer) : (insertRanked le v l).Perm (v :: l) := by
  induction l with
  | nil => exact List.Perm.refl _
  | cons w rest ih =>
      rw [insertRanked]
      by_cases h : le v w = true
      · rw [if_pos h]
      · rw [if_neg h]
        exact (ih.cons w).trans (List.Perm.swap v w rest)

theorem mem_insertRanked {le : Volunteer → Volunteer → Bool} {v x : Volunteer}
    {l : List Volunteer} (h : x ∈ insertRanked le v l) : x = v ∨ x ∈ l :=
  List.mem_cons.mp ((insertRanked_perm le v l).mem_iff.mp h)

theorem insertRanked_sorted (em : Emergency) (dist : Volunteer → ℚ)
    (v : Volunteer) (l : List Volunteer)
    (hs : List.Pairwise (rankRel em dist) l) :
    List.Pairwise (rankRel em dist) (insertRanked (rankLE em dist) v l) := by
  induction l with
  | nil => simp [insertRanked]
  | cons w rest ih =>
      rw [insertRanked]
      rcases List.pairwise_cons.mp hs with ⟨hw, hrest⟩
      by_cases h : rankLE em dist v w = true
      · rw [if_pos h]
        have hvw := (rankLE_iff em dist v w).mp h
        refine List.pairwise_cons.mpr ⟨?_, hs⟩
        intro x hx
        rcases List.mem_cons.mp hx with hx0 | hmem
        · rw [hx0]; exact hvw
        · exact rankRel_trans hvw (hw x hmem)
      · rw [if_neg h]
        have hwv : rankRel em dist w v := by
          rcases rankRel_total em dist v w with ht | ht
          · exact absurd ((rankLE_iff em dist v w).mpr ht) h
          · exact ht
        refine List.pairwise_cons.mpr ⟨?_, ih hrest⟩
        intro x hx
        rcases mem_insertRanked hx with hx0 | hmem
        · rw [hx0]; exact hwv
        · exact hw x hmem

theorem sortRanked_perm (le : Volunteer → Volunteer → Bool)
    (l : List Volunteer) : (sortRanked le l).Perm l := by
  induction l with
  | nil => exact List.Perm.refl _
  | cons v rest ih =>
      simp only [sortRanked]
      exact (insertRanked_perm le v (sortRanked le rest)).trans (ih.cons v)

theorem sortRanked_sorted (em : Emergency) (dist : Volunteer → ℚ)
    (l : List Volunteer) :
    List.Pairwise (rankRel em dist) (sortRanked (rankLE em dist) l) := by
  induction l with
  | nil => simp [sortRanked]
  | cons v rest ih =>
      simp only [sortRanked]
      exact insertRanked_sorted em dist v _ ih

theorem sorted_perm_eq {R : Volunteer → Volunteer → Prop}
    (l₁ l₂ : List Volunteer) (hperm : l₁.Perm l₂)
    (hs1 : List.Pairwise R l₁) (hs2 : List.Pairwise R l₂)
    (hanti : ∀ x ∈ l₁, ∀ y ∈ l₁, R x y → R y x → x = y) :
    l₁ = l₂ := by
  induction l₁ generalizing l₂ with
  | nil => exact hperm.nil_eq
  | cons a t ih =>
      cases l₂ with
      | nil => exact absurd hperm.symm.nil_eq (by simp)
      | cons b t₂ =>
          rcases List.pairwise_cons.mp hs1 with ⟨ha, ht⟩
          rcases List.pairwise_cons.mp hs2 with ⟨hb, ht₂⟩
          have hab : a = b := by
            have hmb : b ∈ a :: t := hperm.mem_iff.mpr (List.mem_cons_self b t₂)
            have hma : a ∈ b :: t₂ := hperm.mem_iff.mp (List.mem_cons_self a t)
            rcases List.mem_cons.mp hmb with hb0 | hbmem
            · exact hb0.symm
            · rcases List.mem_cons.mp hma with ha0 | hamem
              · exact ha0
              · exact hanti a (List.mem_cons_self a t) b
                  (List.mem_cons_of_mem a hbmem) (ha b hbmem) (hb a hamem)
          subst hab
          have hperm' := hperm.cons_inv
          have hanti' : ∀ x ∈ t, ∀ y ∈ t, R x y → R y x → x = y :=
            fun x hx y hy => hanti x (List.mem_cons_of_mem a hx) y
              (List.mem_cons_of_mem a hy)
          exact congrArg (List.cons a) (ih t₂ hperm' ht ht₂ hanti')

/-- C5: `rank` orders volunteers by count of required skills held
(descending), ties broken by distance to the emergency (ascending), then by
most-recent availability-status-update timestamp (descending), then by
volunteer identity (ascending) — it returns a permutation of the candidates
sorted by exactly that order; in the §8 scenario with two equally skilled
available Paramedics at 1km and 3km, the closer volunteer B is ranked
first. -/
theorem rank_orders_by_spec_scoring :
    (∀ (em : Emergency) (dist : Volunteer → ℚ) (cs : List Volunteer),
      (rank em dist cs).Perm cs ∧
      List.Pairwise (fun a b =>
        skillOverlap em b < skillOverlap em a ∨
        (skillOverlap em a = skillOverlap em b ∧
          (dist a < dist b ∨ (dist a = dist b ∧
            (b.lastAvailabilityUpdate < a.lastAvailabilityUpdate ∨
             (a.lastAvailabilityUpdate = b.lastAvailabilityUpdate ∧
              a.vid ≤ b.vid)))))) (rank em dist cs)) ∧
    rank scenEmergency scenDist [volA, volB] = [volB, volA] := by
  refine ⟨fun em dist cs =>
    ⟨sortRanked_perm (rankLE em dist) cs, sortRanked_sorted em dist cs⟩, ?_⟩
  decide

/-- C6: `rank` is deterministic — for fixed inputs there is exactly one
output sequence compatible with the §4.3 ranking contract (a sorted
permutation of the candidates), so any two invocations with identical
inputs, in any invocation order, yield that identical sequence; no
randomness can influence the result. -/
theorem rank_deterministic :
    ∀ (em : Emergency) (dist : Volunteer → ℚ) (cs out : List Volunteer),
      (∀ x ∈ cs, ∀ y ∈ cs, x.vid = y.vid → x = y) →
      out.Perm cs → List.Pairwise (rankRel em dist) out →
      out = rank em dist cs := by
  intro em dist cs out hinj hperm hsort
  apply sorted_perm_eq out (rank em dist cs)
    (hperm.trans (sortRanked_perm (rankLE em dist) cs).symm) hsort
    (sortRanked_sorted em dist cs)
  intro x hx y hy hxy hyx
  exact hinj x (hperm.mem_iff.mp hx) y (hperm.mem_iff.mp hy)
    (rankRel_antisymm hxy hyx)

/-- C6 witness: the sorted permutation [B, A] of the scenario candidates is
the output of `rank` on them. -/
theorem rank_deterministic_witness :
    [volB, volA] = rank scenEmergency scenDist [volA, volB] := by
  apply rank_deterministic scenEmergency scenDist [volA, volB] [volB, volA]
  · decide
  · decide
  · refine List.pairwise_cons.mpr ⟨?_, List.pairwise_singleton _ _⟩
    intro y hy
    rw [show y = volA by simpa using hy]
    exact Or.inr ⟨by decide, Or.inl (by decide)⟩

/-- C7: `eligible` returns exactly the volunteers that are available, hold
at least one verified skill required by the emergency, and are within the
search radius; the radius is the configured default unless broadening was
explicitly requested (then the max radius); when nobody qualifies the
result is the empty list, not an error. -/
theorem eligible_characterization :
    (∀ (em : Emergency) (dist : Volunteer → ℚ) (radius : ℚ)
      (pool : List Volunteer) (v : Volunteer),
      v ∈ eligible em dist radius pool ↔
        (v ∈ pool ∧ v.availability = .available ∧
         (∃ sk ∈ em.requiredSkills, sk ∈ v.verifiedSkills) ∧
         dist v ≤ radius)) ∧
    (∀ cfg : MatchConfig,
      searchRadius cfg false = cfg.defaultRadiusKm ∧
      searchRadius cfg true = cfg.maxRadiusKm) ∧
    (∀ (em : Emergency) (dist : Volunteer → ℚ) (radius : ℚ)
      (pool : List Volunteer),
      (∀ v ∈ pool, ¬(v.availability = .available ∧
        (∃ sk ∈ em.requiredSkills, sk ∈ v.verifiedSkills) ∧
        dist v ≤ radius)) →
      eligible em dist radius pool = []) := by
  have hmem : ∀ (em : Emergency) (dist : Volunteer → ℚ) (radius : ℚ)
      (pool : List Volunteer) (v : Volunteer),
      v ∈ eligible em dist radius pool ↔
        (v ∈ pool ∧ v.availability = .available ∧
         (∃ sk ∈ em.requiredSkills, sk ∈ v.verifiedSkills) ∧
         dist v ≤ radius) := by
    intro em dist radius pool v
    rw [eligible, List.mem_filter]
    simp [hasVerifiedOverlap, and_assoc]
  refine ⟨hmem, fun cfg => ⟨rfl, rfl⟩, ?_⟩
  intro em dist radius pool h
  rw [List.eq_nil_iff_forall_not_mem]
  intro v hv
  rw [hmem] at hv
  exact h v hv.1 hv.2

/-- C7 witness: with radius 1km and the only candidate 3km away, nobody
qualifies and `eligible` returns the empty list. -/
theorem eligible_characterization_witness :
    eligible scenEmergency scenDist 1 [volA] = [] :=
  eligible_characterization.2.2 scenEmergency scenDist 1 [volA] (by decide)

/-- C9: errors arise as typed result values — a candidate either processes
to an `ok` result or to the typed `InvalidCoordinate` — and a single
failing candidate in the pool is logged and skipped while matching
completes for the remaining pool: the loop's successful results on
`xs ++ v :: ys` with `v` failing are exactly those on `xs` followed by
those on `ys`, and the failure is recorded, never thrown. -/
theorem typed_error_results_skip_candidate :
    (∀ (em : Emergency) (dist : Volunteer → ℚ) (v : Volunteer),
      (∃ p, processCandidate em dist v = .ok p) ∨
      processCandidate em dist v = .error .invalidCoordinate) ∧
    (∀ (em : Emergency) (dist : Volunteer → ℚ) (xs ys : List Volunteer)
      (v : Volunteer) (k : ErrKind),
      processCandidate em dist v = .error k →
      (matchLoop em dist (xs ++ v :: ys)).1 =
        (matchLoop em dist xs).1 ++ (matchLoop em dist ys).1 ∧
      (v.vid, k) ∈ (matchLoop em dist (xs ++ v :: ys)).2) := by
  constructor
  · intro em dist v
    by_cases h : validCoord v.lat v.lon = true
    · exact Or.inl ⟨(v, dist v), by rw [processCandidate, if_pos h]⟩
    · exact Or.inr (by rw [processCandidate, if_neg h])
  · intro em dist xs ys v k hv
    induction xs with
    | nil =>
        refine ⟨?_, ?_⟩
        · simp only [List.nil_append, matchLoop, hv]
        · simp only [List.nil_append, matchLoop, hv]
          exact List.mem_cons_self _ _
    | cons x xs ih =>
        obtain ⟨ih1, ih2⟩ := ih
        cases hx : processCandidate em dist x with
        | ok p =>
            refine ⟨?_, ?_⟩
            · simp only [List.cons_append, matchLoop, hx, List.append_eq, ih1]
            · simp only [List.cons_append, matchLoop, hx]
              exact ih2
        | error k2 =>
            refine ⟨?_, ?_⟩
            · simp only [List.cons_append, matchLoop, hx, List.append_eq, ih1]
            · simp only [List.cons_append, matchLoop, hx]
              exact List.mem_cons_of_mem _ ih2

/-- C9 witness: the malformed volunteer `vBad` fails with the typed
`InvalidCoordinate`, is logged, and the two well-formed candidates around
it are still processed. -/
theorem typed_error_results_witness :
    processCandidate scenEmergency scenDist vBad = .error .invalidCoordinate ∧
    (matchLoop scenEmergency scenDist ([volA] ++ vBad :: [volB])).1 =
      (matchLoop scenEmergency scenDist [volA]).1 ++
        (matchLoop scenEmergency scenDist [volB]).1 ∧
    (vBad.vid, ErrKind.invalidCoordinate) ∈
      (matchLoop scenEmergency scenDist ([volA] ++ vBad :: [volB])).2 := by
  have h := typed_error_results_skip_candidate.2 scenEmergency scenDist
    [volA] [volB] vBad .invalidCoordinate rfl
  exact ⟨rfl, h.1, h.2⟩

theorem lsGet_lsRemove (k target : String) (st : List (String × String)) :
    lsGet target (lsRemove k st) =
      if target = k then none else lsGet target st := by
  induction st with
  | nil => simp [lsGet, lsRemove, List.lookup]
  | cons kv rest ih =>
      by_cases h1 : kv.1 = k
      · have hb : (kv.1 == k) = true := by simp [h1]
        have hdrop : lsRemove k (kv :: rest) = lsRemove k rest := by
          simp [lsRemove, List.filter_cons, hb]
        rw [hdrop, ih]
        by_cases h2 : target = k
        · simp [h2]
        · have hb2 : (target == kv.1) = false := by
            rw [h1]
            exact beq_eq_false_iff_ne.mpr h2
          simp [h2, lsGet, List.lookup, hb2]
      · have hb : (kv.1 == k) = false := beq_eq_false_iff_ne.mpr h1
        have hkeep : lsRemove k (kv :: rest) = kv :: lsRemove k rest := by
          simp [lsRemove, List.filter_cons, hb]
        rw [hkeep]
        by_cases h3 : target = kv.1
        · have hb3 : (target == kv.1) = true := by simp [h3]
          have h2 : ¬target = k := by
            rw [h3]
            exact h1
          simp [lsGet, List.lookup, hb3, h2]
        · have hb3 : (target == kv.1) = false := beq_eq_false_iff_ne.mpr h3
          simp only [lsGet] at ih
          simp [lsGet, List.lookup, hb3, ih]

/-- C10: whatever the outcome of the server request, `AuthAPI.logout`
returns normally (no error escapes the catch), the in-memory token is
null, the `authToken` and `user` entries are gone from localStorage, and
`AuthAPI.isAuthenticated()` is false afterwards. -/
theorem logout_clears_auth_state :
    ∀ (o : ServerOutcome) (s : ClientState),
      (logout o s).authToken = none ∧
      lsGet "authToken" (logout o s).localStorage = none ∧
      lsGet "user" (logout o s).localStorage = none ∧
      isAuthenticated (logout o s) = false := by
  intro o s
  have hlog : logout o s =
      { authToken := none,
        localStorage := lsRemove "user" (lsRemove "authToken" s.localStorage) } := by
    cases o <;> rfl
  rw [hlog]
  refine ⟨rfl, ?_, ?_, rfl⟩
  · show lsGet "authToken" (lsRemove "user" (lsRemove "authToken" s.localStorage)) = none
    rw [lsGet_lsRemove, if_neg (by decide), lsGet_lsRemove, if_pos rfl]
  · show lsGet "user" (lsRemove "user" (lsRemove "authToken" s.localStorage)) = none
    rw [lsGet_lsRemove, if_pos rfl]

end ERP
